import Mathlib

set_option maxHeartbeats 1000000

/-!
Shallow embedding of virtual_screen.py: a tool that reads a framebuffer
from a target device and paints it on a scaled canvas.  The decoder logic
(mono paged 1bpp and packed RGB565) is embedded as pure functions over
lists of natural numbers (memory units); painting is modelled as a list of
emitted paint operations, and the displayed grid as a fold over those
operations.  Indexing a too-short frame raises IndexError in Python; this
is modelled by stopping the emission and reporting a false success flag.
-/

/-- Color model: an (R, G, B, A) tuple with 8-bit channels, as used by the
source via QColor and the BLACK and WHITE constants. -/
structure Color where
  r : Nat
  g : Nat
  b : Nat
  a : Nat
deriving DecidableEq

/-- BLACK = (0, 0, 0, 255) from the source. -/
def BLACK : Color := ⟨0, 0, 0, 255⟩

/-- WHITE = (255, 255, 255, 255) from the source. -/
def WHITE : Color := ⟨255, 255, 255, 255⟩

/-- VirtualScreen.SCALE = 2. -/
def SCALE : Nat := 2

/-- VirtualScreen.PIXEL_COLOR = WHITE. -/
def PIXEL_COLOR : Color := WHITE

/-- VirtualScreen.BG_COLOR = BLACK. -/
def BG_COLOR : Color := BLACK

/-- QtGui.QColor(r, g, b): alpha channel defaults to 255. -/
def qcolor (r g b : Nat) : Color := ⟨r, g, b, 255⟩

/-- One painter action on the canvas.  fill models the clear performed by
clear_screen (a drawLine across the middle with pen width equal to the
whole canvas height, which covers every canvas pixel); point models
painter.drawPoint at a canvas coordinate with the pen color current at
that moment. -/
inductive PaintOp where
  | fill (c : Color)
  | point (x y : Nat) (c : Color)
deriving DecidableEq

/-- Embeds VirtualScreen.set_pixel_color_16: extracts the RGB565 channels
of a 16-bit value and scales them to 8 bits.  Masks are written in hex:
0x1F is the low 5 bits, 0x7E0 the middle 6 bits, 0xF800 the top 5 bits,
matching the binary literals of the source; the red shift is 5 + 6 as in
the source. -/
def set_pixel_color_16 (pixel_16 : Nat) : Color :=
  let b_val := (pixel_16 &&& 0x1F) * 8
  let g_val := ((pixel_16 &&& 0x7E0) >>> 5) * 4
  let r_val := ((pixel_16 &&& 0xF800) >>> (5 + 6)) * 8
  qcolor r_val g_val b_val

/-- Embeds VirtualScreen.clear_screen: the full-height pen stroke fills
the whole canvas with BG_COLOR, then the pen is reset to PIXEL_COLOR
(the pen reset is painter state, not a canvas change). -/
def clear_screen : List PaintOp := [PaintOp.fill BG_COLOR]

/-- Embeds the inner bit loop of VirtualScreen.draw_screen_mono: for each
bit_pos in range(8), if the byte has that bit set, draw a point at canvas
coordinate (column * SCALE, (bit_pos + page * vram_pages) * SCALE) with
the current pen color PIXEL_COLOR = WHITE. -/
def bit_ops (byte column page vram_pages : Nat) : List PaintOp :=
  (List.range 8).filterMap (fun bit_pos =>
    if byte &&& (1 <<< bit_pos) ≠ 0 then
      some (PaintOp.point (column * SCALE) ((bit_pos + page * vram_pages) * SCALE) PIXEL_COLOR)
    else none)

/-- Iteration order of the two nested loops of draw_screen_mono:
page in range(vram_pages), column in range(vram_w). -/
def page_columns (vram_w vram_pages : Nat) : List (Nat × Nat) :=
  (List.range vram_pages).flatMap (fun page =>
    (List.range vram_w).map (fun column => (page, column)))

/-- Runs an emission step for every element of the list in order.  If a
step fails (a list index is out of range, raising IndexError in Python),
the operations emitted by the earlier steps are kept, the remaining steps
are abandoned, and the success flag is false. -/
def emitAll {α : Type} (f : α → Option (List PaintOp)) : List α → List PaintOp × Bool
  | [] => ([], true)
  | a :: rest =>
    match f a with
    | none => ([], false)
    | some ops =>
      let r := emitAll f rest
      (ops ++ r.1, r.2)

/-- Embeds VirtualScreen.draw_screen_mono on an already-fetched frame:
clear the screen, then for each page and column read
vram[column + page * vram_w] and emit the points of its set bits. -/
def draw_screen_mono (vram_w vram_pages : Nat) (vram : List Nat) : List PaintOp × Bool :=
  let r := emitAll
    (fun pc => (vram[pc.2 + pc.1 * vram_w]?).map
      (fun byte => bit_ops byte pc.2 pc.1 vram_pages))
    (page_columns vram_w vram_pages)
  (clear_screen ++ r.1, r.2)

/-- Embeds one iteration body of the while loop of
VirtualScreen.draw_screen_rgb565: split the 64-bit unit into four 16-bit
pixels (pixel_0 the low 16 bits, then bits 16-31, 32-47, 48-63) and draw
them at x positions p_x, p_x + 1, p_x + 2, p_x + 3 of row p_y. -/
def quartet_ops (p_x p_y pixel_quartet : Nat) : List PaintOp :=
  [PaintOp.point (p_x * SCALE) (p_y * SCALE)
     (set_pixel_color_16 (pixel_quartet &&& 0x000000000000FFFF)),
   PaintOp.point ((p_x + 1) * SCALE) (p_y * SCALE)
     (set_pixel_color_16 ((pixel_quartet &&& 0x00000000FFFF0000) >>> 16)),
   PaintOp.point ((p_x + 2) * SCALE) (p_y * SCALE)
     (set_pixel_color_16 ((pixel_quartet &&& 0x0000FFFF00000000) >>> 32)),
   PaintOp.point ((p_x + 3) * SCALE) (p_y * SCALE)
     (set_pixel_color_16 ((pixel_quartet &&& 0xFFFF000000000000) >>> 48))]

/-- Iteration order of draw_screen_rgb565: p_y in range(vram_h), and the
while loop p_x = 0, 4, 8, ... while p_x < vram_w, i.e. i_x in
range((vram_w + 3) / 4) with p_x = 4 * i_x. -/
def quartet_cells (vram_w vram_h : Nat) : List (Nat × Nat) :=
  (List.range vram_h).flatMap (fun p_y =>
    (List.range ((vram_w + 3) / 4)).map (fun i_x => (p_y, i_x)))

/-- Embeds VirtualScreen.draw_screen_rgb565 on an already-fetched frame:
clear the screen, then for each row p_y and quartet index i_x read
vram[i_x + p_y * (vram_w / 4)] and emit its four points. -/
def draw_screen_rgb565 (vram_w vram_h : Nat) (vram : List Nat) : List PaintOp × Bool :=
  let row_offset := vram_w / 4
  let r := emitAll
    (fun c => (vram[c.2 + c.1 * row_offset]?).map
      (fun q => quartet_ops (4 * c.2) c.1 q))
    (quartet_cells vram_w vram_h)
  (clear_screen ++ r.1, r.2)

/-- Effect of one paint operation on the color of the device pixel (x, y),
which lives at canvas coordinate (x * SCALE, y * SCALE).  A fill covers
every pixel; a point covers the pixel whose canvas coordinate it targets. -/
def paintStep (x y : Nat) (c : Color) : PaintOp → Color
  | PaintOp.fill col => col
  | PaintOp.point px py col => if px = x * SCALE ∧ py = y * SCALE then col else c

/-- Color of device pixel (x, y) after replaying a list of paint
operations over a canvas whose previous content at that pixel was init. -/
def renderDevice (init : Color) (ops : List PaintOp) (x y : Nat) : Color :=
  ops.foldl (paintStep x y) init

/-- Displayed color of device pixel (x, y) after one mono tick. -/
def monoGrid (vram_w vram_pages : Nat) (vram : List Nat) (x y : Nat) : Color :=
  renderDevice BLACK (draw_screen_mono vram_w vram_pages vram).1 x y

/-- Canvas position of a point operation; a fill has none. -/
def opPos : PaintOp → Option (Nat × Nat)
  | PaintOp.point x y _ => some (x, y)
  | PaintOp.fill _ => none

/-- Row-major list of the canvas coordinates of all device pixels of a
w by h grid: (x * SCALE, y * SCALE) for y in range(h), x in range(w). -/
def rowMajorPoints (w h : Nat) : List (Nat × Nat) :=
  (List.range h).flatMap (fun y => (List.range w).map (fun x => (x * SCALE, y * SCALE)))

/-- Number of device pixels of a w by h grid displayed in color c. -/
def colorCount (w h : Nat) (ops : List PaintOp) (c : Color) : Nat :=
  ((List.range h).map (fun y =>
    ((List.range w).filter (fun x => decide (renderDevice BLACK ops x y = c))).length)).sum

/-- A mono frame of len bytes that is all zero except that byte i has
exactly bit b set. -/
def oneBitFrame (len i b : Nat) : List Nat :=
  (List.range len).map (fun j => if j = i then (1 <<< b) else 0)

/-- Embeds VirtualScreen.__init__ for the fields the claims depend on.
The constructor performs no validation of the geometry: in mono mode it
sets vram_pages = vram_h / 8 (floor division, as the Python // does) and
connects the timer to draw_screen_mono; in rgb565 mode it connects the
timer to draw_screen_rgb565; there is no rejection path. -/
structure ScreenInit where
  mode : String
  vram_w : Nat
  vram_h : Nat
  vram_pages : Nat
  timer_connected : Bool
deriving DecidableEq

/-- Embeds the body of VirtualScreen.__init__ (the startup configuration
step): always returns a constructed screen, never an error. -/
def initVirtualScreen (mode : String) (w h : Nat) : ScreenInit :=
  { mode := mode
    vram_w := w
    vram_h := h
    vram_pages := if mode = "mono" then h / 8 else 0
    timer_connected := mode = "mono" || mode = "rgb565" }

/-- Outcome of the startup code at the bottom of virtual_screen.py,
before the Qt application is started. -/
inductive StartupResult where
  | exitWithError (msg : String)
  | openOcdConnect (address : Nat)
  | jlinkConnect (target : String)
deriving DecidableEq

/-- Whitespace characters removed by the Python str.strip() default. -/
def py_isspace (c : Char) : Bool :=
  c = ' ' || c = '\t' || c = '\n' || c = '\r' || c = '\x0b' || c = '\x0c'

/-- ASCII uppercasing of one character, as str.upper() acts on the ASCII
range (the range relevant to the OPENOCD sentinel). -/
def py_upper_char (c : Char) : Char :=
  if c.isLower then Char.ofNat (c.toNat - 32) else c

/-- Embeds the mcu normalization of get_params: mcu.strip().upper(),
modelled over the character list of the string. -/
def normalize_mcu (s : String) : String :=
  String.mk ((((s.data.dropWhile py_isspace).reverse.dropWhile py_isspace).reverse).map py_upper_char)

/-- Exit code of a startup outcome: sys.exit with a string message prints
it and exits with status 1; the connect outcomes do not exit. -/
def startupExitCode : StartupResult → Option Nat
  | StartupResult.exitWithError _ => some 1
  | _ => none

/-- Embeds the dispatch of the main block: if the normalized mcu equals
OPENOCD and the parsed address is 0 (the default "0" parses to 0), call
sys.exit with the error message before constructing any debugger
connection; otherwise proceed to the corresponding connect path. -/
def main_startup (mcuArg : String) (address : Nat) : StartupResult :=
  let target_mcu := normalize_mcu mcuArg
  if target_mcu = "OPENOCD" then
    if address = 0 then
      StartupResult.exitWithError
        "Parameter <address> must be specified if mcu=OpenOCD (-h for help)."
    else
      StartupResult.openOcdConnect address
  else
    StartupResult.jlinkConnect target_mcu

example : set_pixel_color_16 0xF800 = qcolor 248 0 0 := by decide
example : set_pixel_color_16 0x07E0 = qcolor 0 252 0 := by decide
example : set_pixel_color_16 0x001F = qcolor 0 0 248 := by decide
example : monoGrid 4 1 [1, 0, 0, 0] 0 0 = WHITE := by decide
example : colorCount 4 8 (draw_screen_mono 4 1 [1, 0, 0, 0]).1 WHITE = 1 := by decide
example : monoGrid 1 2 [0, 1] 0 2 = WHITE := by decide
example : draw_screen_mono 4 1 [] = ([PaintOp.fill BLACK], false) := by decide
example : normalize_mcu "OpenOCD" = "OPENOCD" := by decide
example : quartet_ops 0 0 0x001F07E0F8000000 =
    [PaintOp.point 0 0 (qcolor 0 0 0), PaintOp.point 2 0 (qcolor 248 0 0),
     PaintOp.point 4 0 (qcolor 0 252 0), PaintOp.point 6 0 (qcolor 0 0 248)] := by decide

theorem and_shiftRight_distrib (a b i : Nat) : (a &&& b) >>> i = (a >>> i) &&& (b >>> i) := by
  apply Nat.eq_of_testBit_eq
  intro j
  simp [Nat.testBit_shiftRight, Nat.testBit_and]

theorem shiftLeft_one_and_ne {a b : Nat} (h : (1 <<< a) &&& (1 <<< b) ≠ 0) : a = b := by
  by_contra hne
  apply h
  apply Nat.eq_of_testBit_eq
  intro j
  by_cases haj : a = j
  · subst haj
    simp [Nat.one_shiftLeft, Nat.testBit_two_pow_of_ne (Ne.symm hne)]
  · simp [Nat.one_shiftLeft, Nat.testBit_two_pow_of_ne haj]

theorem index_lt {w pages p c : Nat} (hp : p < pages) (hc : c < w) :
    c + p * w < w * pages := by
  have h1 : c + p * w < p * w + w := by omega
  have h2 : p * w + w = (p + 1) * w := by ring
  have h3 : (p + 1) * w ≤ pages * w := Nat.mul_le_mul_right w hp
  have h4 : pages * w = w * pages := Nat.mul_comm pages w
  omega

theorem emitAll_of_some {α : Type} (f : α → Option (List PaintOp)) (g : α → List PaintOp) :
    ∀ l : List α, (∀ a ∈ l, f a = some (g a)) →
      emitAll f l = ((l.map g).flatten, true)
  | [], _ => rfl
  | a :: rest, h => by
    have ha := h a (List.mem_cons_self a rest)
    have ih := emitAll_of_some f g rest (fun b hb => h b (List.mem_cons_of_mem a hb))
    simp [emitAll, ha, ih]

theorem mem_page_columns {w pages p c : Nat} :
    (p, c) ∈ page_columns w pages ↔ p < pages ∧ c < w := by
  simp only [page_columns, List.mem_flatMap, List.mem_map, List.mem_range, Prod.mk.injEq]
  constructor
  · rintro ⟨a, ha, b, hb, h1, h2⟩
    subst h1; subst h2
    exact ⟨ha, hb⟩
  · rintro ⟨hp, hc⟩
    exact ⟨p, hp, c, hc, rfl, rfl⟩

theorem mem_bit_ops {byte column page pages : Nat} {op : PaintOp} :
    op ∈ bit_ops byte column page pages ↔
      ∃ b, b < 8 ∧ byte &&& (1 <<< b) ≠ 0 ∧
        PaintOp.point (column * SCALE) ((b + page * pages) * SCALE) PIXEL_COLOR = op := by
  simp [bit_ops, List.mem_filterMap, List.mem_range, Option.ite_none_right_eq_some, and_assoc]

theorem renderDevice_points (x y : Nat) (c : Color) :
    ∀ (pts : List PaintOp) (init : Color),
      (∀ op ∈ pts, ∃ px, ∃ py, op = PaintOp.point px py c) →
      renderDevice init pts x y =
        if PaintOp.point (x * SCALE) (y * SCALE) c ∈ pts then c else init := by
  intro pts
  induction pts with
  | nil => intro init _; simp [renderDevice]
  | cons op rest ih =>
    intro init h
    obtain ⟨px, py, rfl⟩ := h op (List.mem_cons_self op rest)
    have hrest : ∀ o ∈ rest, ∃ px, ∃ py, o = PaintOp.point px py c :=
      fun o ho => h o (List.mem_cons_of_mem _ ho)
    have hfold := ih (paintStep x y init (PaintOp.point px py c)) hrest
    simp only [renderDevice, List.foldl_cons] at hfold ⊢
    rw [hfold]
    by_cases hpx : px = x * SCALE ∧ py = y * SCALE
    · obtain ⟨h1, h2⟩ := hpx
      subst h1; subst h2
      simp [paintStep, List.mem_cons]
    · have hne : ¬(x * SCALE = px ∧ y * SCALE = py ∧ c = c) := by
        intro hcon
        exact hpx ⟨hcon.1.symm, hcon.2.1.symm⟩
      simp only [paintStep, if_neg hpx, List.mem_cons, PaintOp.point.injEq]
      have hcond : ¬(x * SCALE = px ∧ y * SCALE = py) :=
        fun hc => hne ⟨hc.1, hc.2, rfl⟩
      by_cases hmem : PaintOp.point (x * SCALE) (y * SCALE) c ∈ rest
      · simp [hmem]
      · simp [hmem, hne, hcond]

theorem flatten_map_quadruple {β : Type} (g : Nat → β) :
    ∀ k : Nat,
      ((List.range k).map (fun i =>
        [g (4 * i), g (4 * i + 1), g (4 * i + 2), g (4 * i + 3)])).flatten
        = (List.range (4 * k)).map g := by
  intro k
  induction k with
  | zero => rfl
  | succ k ih =>
    have h4 : 4 * (k + 1) = 4 * k + 1 + 1 + 1 + 1 := by ring
    rw [List.range_succ, h4, List.range_succ, List.range_succ, List.range_succ, List.range_succ]
    simp [List.flatten_append, ih, List.map_append, List.append_assoc]

theorem oneBitFrame_getElem {len i b j : Nat} (hj : j < len) :
    (oneBitFrame len i b)[j]? = some (if j = i then 1 <<< b else 0) := by
  simp [oneBitFrame, List.getElem?_map, List.getElem?_range, hj]

theorem draw_screen_mono_eq (w pages : Nat) (vram : List Nat)
    (hlen : vram.length = w * pages) :
    draw_screen_mono w pages vram =
      (PaintOp.fill BG_COLOR ::
        ((page_columns w pages).map (fun pc =>
          bit_ops (vram.getD (pc.2 + pc.1 * w) 0) pc.2 pc.1 pages)).flatten, true) := by
  have hsome : ∀ pc ∈ page_columns w pages,
      (vram[pc.2 + pc.1 * w]?).map (fun byte => bit_ops byte pc.2 pc.1 pages)
        = some (bit_ops (vram.getD (pc.2 + pc.1 * w) 0) pc.2 pc.1 pages) := by
    intro pc hpc
    obtain ⟨p, c⟩ := pc
    obtain ⟨hp, hc⟩ := mem_page_columns.mp hpc
    have hidx : c + p * w < vram.length := by
      rw [hlen]; exact index_lt hp hc
    simp [List.getElem?_eq_getElem hidx, List.getD_eq_getElem?_getD]
  have h := emitAll_of_some
    (fun pc => (vram[pc.2 + pc.1 * w]?).map (fun byte => bit_ops byte pc.2 pc.1 pages))
    (fun pc => bit_ops (vram.getD (pc.2 + pc.1 * w) 0) pc.2 pc.1 pages)
    (page_columns w pages) hsome
  simp [draw_screen_mono, clear_screen, h]

theorem getElem?_eq_some_getD (vram : List Nat) (n : Nat) (hn : n < vram.length) :
    vram[n]? = some (vram.getD n 0) := by
  simp [List.getElem?_eq_getElem hn, List.getD_eq_getElem?_getD]

theorem monoGrid_white_iff (w pages : Nat) (vram : List Nat)
    (hlen : vram.length = w * pages) (x y : Nat) :
    monoGrid w pages vram x y = WHITE ↔
      ∃ p, p < pages ∧ ∃ b, b < 8 ∧ x < w ∧ y = b + p * pages ∧
        ∃ byte, vram[x + p * w]? = some byte ∧ byte &&& (1 <<< b) ≠ 0 := by
  rw [monoGrid, draw_screen_mono_eq w pages vram hlen]
  have hwhite : ∀ op ∈ ((page_columns w pages).map (fun pc =>
      bit_ops (vram.getD (pc.2 + pc.1 * w) 0) pc.2 pc.1 pages)).flatten,
      ∃ px, ∃ py, op = PaintOp.point px py WHITE := by
    intro op hop
    obtain ⟨l, hl, hopl⟩ := List.mem_flatten.mp hop
    obtain ⟨pc, _, rfl⟩ := List.mem_map.mp hl
    obtain ⟨b, _, _, heq⟩ := mem_bit_ops.mp hopl
    exact ⟨pc.2 * SCALE, (b + pc.1 * pages) * SCALE, heq.symm⟩
  have hstep : renderDevice BLACK (PaintOp.fill BG_COLOR ::
      ((page_columns w pages).map (fun pc =>
        bit_ops (vram.getD (pc.2 + pc.1 * w) 0) pc.2 pc.1 pages)).flatten) x y
      = renderDevice BLACK (((page_columns w pages).map (fun pc =>
        bit_ops (vram.getD (pc.2 + pc.1 * w) 0) pc.2 pc.1 pages)).flatten) x y := by
    simp [renderDevice, List.foldl_cons, paintStep, BG_COLOR]
  have hrd := renderDevice_points x y WHITE _ BLACK hwhite
  have hmem_iff : PaintOp.point (x * SCALE) (y * SCALE) WHITE ∈
        ((page_columns w pages).map (fun pc =>
          bit_ops (vram.getD (pc.2 + pc.1 * w) 0) pc.2 pc.1 pages)).flatten ↔
      ∃ p, p < pages ∧ ∃ b, b < 8 ∧ x < w ∧ y = b + p * pages ∧
        ∃ byte, vram[x + p * w]? = some byte ∧ byte &&& (1 <<< b) ≠ 0 := by
    constructor
    · intro hmem
      obtain ⟨l, hl, hopl⟩ := List.mem_flatten.mp hmem
      obtain ⟨pc, hpc, rfl⟩ := List.mem_map.mp hl
      obtain ⟨p, c⟩ := pc
      obtain ⟨hp, hc⟩ := mem_page_columns.mp hpc
      obtain ⟨b, hb, hbit, heq⟩ := mem_bit_ops.mp hopl
      simp only [PaintOp.point.injEq] at heq
      have hcx : c = x := by
        have := heq.1
        simp [SCALE] at this
        omega
      have hby : b + p * pages = y := by
        have := heq.2.1
        simp [SCALE] at this
        omega
      subst hcx
      have hidx : c + p * w < vram.length := by
        rw [hlen]; exact index_lt hp hc
      exact ⟨p, hp, b, hb, hc, hby.symm,
        vram.getD (c + p * w) 0, getElem?_eq_some_getD vram _ hidx, hbit⟩
    · rintro ⟨p, hp, b, hb, hxw, hy, byte, hbyte, hbit⟩
      have hidx : x + p * w < vram.length := by
        rw [hlen]; exact index_lt hp hxw
      have hbyteD : byte = vram.getD (x + p * w) 0 := by
        have h2 := getElem?_eq_some_getD vram _ hidx
        rw [hbyte] at h2
        exact Option.some.injEq _ _ ▸ h2
      apply List.mem_flatten.mpr
      refine ⟨bit_ops (vram.getD (x + p * w) 0) x p pages, ?_, ?_⟩
      · exact List.mem_map.mpr ⟨(p, x), mem_page_columns.mpr ⟨hp, hxw⟩, rfl⟩
      · apply mem_bit_ops.mpr
        refine ⟨b, hb, ?_, ?_⟩
        · rw [← hbyteD]; exact hbit
        · rw [hy]; rfl
  rw [hstep, hrd]
  constructor
  · intro hif
    by_cases hc : PaintOp.point (x * SCALE) (y * SCALE) WHITE ∈
        ((page_columns w pages).map (fun pc =>
          bit_ops (vram.getD (pc.2 + pc.1 * w) 0) pc.2 pc.1 pages)).flatten
    · exact hmem_iff.mp hc
    · rw [if_neg hc] at hif
      exact absurd hif (by decide)
  · intro hR
    rw [if_pos (hmem_iff.mpr hR)]

/-- Claim C1 counterexample: the per-triple biconditional of the claim is
false in general.  With W = 1, H = 16 (pages = H / 8 = 2) and the mono
RawFrame [0x00, 0x01] of W * pages bytes, take page p = 0, column c = 0,
bit b = 2: bit 2 of byte[0 + 0 * 1] = 0x00 is clear, so the claim says the
pixel at device coordinate (0, 2 + 0 * 2) = (0, 2) is background; but that
pixel is foreground, because the set bit 0 of byte index 1 (page p = 1)
also maps to y = 0 + 1 * 2 = 2.  The coordinate map collides whenever
pages is not 8 or 1, so the claimed "and background otherwise" fails. -/
theorem c1_mono_decode_counterexample :
    monoGrid 1 2 [0, 1] 0 2 = WHITE ∧
    (([0, 1] : List Nat)[0 + 0 * 1]? = some 0) ∧ 0 &&& (1 <<< 2) = 0 := by decide

/-- Claim C1, amended: for every mono RawFrame of W * pages bytes
(pages = H / 8), a pixel at device coordinate (x, y) is foreground exactly
when SOME page p, column c = x and bit b with bit b of byte[c + p * W] set
satisfies y = b + p * pages (if bit b of byte[c + p * W] is set the pixel
at (c, b + p * pages) is foreground, but a clear bit does not force
background, since another triple may map to the same coordinate);
consequently a frame with exactly one bit set yields exactly one
foreground pixel, at the deterministic coordinate
(i mod W, b + (i div W) * pages) for byte index i and bit b — with
W = 128, H = 64, byte index 0 with bit 0 set yields foreground exactly
at pixel (0, 0). -/
theorem c1_mono_decode_amended (w h : Nat) (hh : h % 8 = 0) :
    (∀ vram : List Nat, vram.length = w * (h / 8) → ∀ x y : Nat,
      (monoGrid w (h / 8) vram x y = WHITE ↔
        ∃ p, p < h / 8 ∧ ∃ b, b < 8 ∧ x < w ∧ y = b + p * (h / 8) ∧
          ∃ byte, vram[x + p * w]? = some byte ∧ byte &&& (1 <<< b) ≠ 0)) ∧
    (∀ i b0, i < w * (h / 8) → b0 < 8 → ∀ x y : Nat,
      (monoGrid w (h / 8) (oneBitFrame (w * (h / 8)) i b0) x y = WHITE ↔
        (x = i % w ∧ y = b0 + (i / w) * (h / 8)))) := by
  constructor
  · intro vram hlen x y
    exact monoGrid_white_iff w (h / 8) vram hlen x y
  · intro i b0 hi hb0 x y
    have hw0 : 0 < w := by
      rcases Nat.eq_zero_or_pos w with h0 | h0
      · subst h0; omega
      · exact h0
    have hlenf : (oneBitFrame (w * (h / 8)) i b0).length = w * (h / 8) := by
      simp [oneBitFrame]
    rw [monoGrid_white_iff w (h / 8) _ hlenf x y]
    constructor
    · rintro ⟨p, hp, b, hb, hxw, hy, byte, hbyte, hbit⟩
      have hidx : x + p * w < w * (h / 8) := index_lt hp hxw
      rw [oneBitFrame_getElem hidx] at hbyte
      have hbyte2 : (if x + p * w = i then 1 <<< b0 else 0) = byte :=
        Option.some.inj hbyte
      by_cases hji : x + p * w = i
      · rw [if_pos hji] at hbyte2
        rw [← hbyte2] at hbit
        have hbb : b0 = b := shiftLeft_one_and_ne hbit
        subst hbb
        subst hji
        have hmod : (x + p * w) % w = x := by
          rw [Nat.add_mul_mod_self_right]
          exact Nat.mod_eq_of_lt hxw
        have hdiv : (x + p * w) / w = p := by
          rw [Nat.add_mul_div_right x p hw0, Nat.div_eq_of_lt hxw]
          omega
        exact ⟨hmod.symm, by rw [hdiv]; exact hy⟩
      · rw [if_neg hji] at hbyte2
        rw [← hbyte2] at hbit
        simp [Nat.zero_and] at hbit
    · rintro ⟨hx, hy⟩
      have hpdiv : i / w < h / 8 := by
        rw [Nat.div_lt_iff_lt_mul hw0]
        have hcomm := Nat.mul_comm w (h / 8)
        omega
      have hxmod : x < w := by
        rw [hx]; exact Nat.mod_lt i hw0
      have hidxeq : x + (i / w) * w = i := by
        rw [hx]
        have h1 := Nat.mod_add_div i w
        have h2 : (i / w) * w = w * (i / w) := Nat.mul_comm _ _
        omega
      have hidx : x + (i / w) * w < w * (h / 8) := by
        rw [hidxeq]; exact hi
      refine ⟨i / w, hpdiv, b0, hb0, hxmod, hy, 1 <<< b0, ?_, ?_⟩
      · rw [oneBitFrame_getElem hidx, if_pos hidxeq]
      · simp [Nat.and_self, Nat.one_shiftLeft]

/-- Claim C1 witness: the amended theorem applied at the concrete
configuration of the claim, W = 128, H = 64 (8 pages), one-bit frame with
byte index 0 and bit 0 set: pixel (0, 0) is foreground. -/
theorem c1_mono_decode_amended_witness :
    64 % 8 = 0 ∧
    monoGrid 128 (64 / 8) (oneBitFrame (128 * (64 / 8)) 0 0) 0 0 = WHITE := by
  refine ⟨by decide, ?_⟩
  exact ((c1_mono_decode_amended 128 64 (by decide)).2 0 0 (by decide) (by decide)
    0 0).mpr (by decide)

theorem flatten_map_nil {alpha beta : Type} :
    ∀ l : List alpha, (l.map (fun _ => ([] : List beta))).flatten = [] := by
  intro l
  induction l with
  | nil => rfl
  | cons a t ih => simp [ih]

/-- Claim C2: the RGB565 per-pixel decode is a pure function of the 16-bit
value with red = ((v >>> 11) &&& 0x1F) * 8, green = ((v >>> 5) &&& 0x3F) * 4,
blue = (v &&& 0x1F) * 8, and the three concrete probe values decode to
(248,0,0), (0,252,0) and (0,0,248).  The source writes mask-then-shift;
this equals shift-then-mask. -/
theorem c2_rgb565_channel_decode :
    (∀ v : Nat, set_pixel_color_16 v =
      qcolor (((v >>> 11) &&& 0x1F) * 8) (((v >>> 5) &&& 0x3F) * 4) ((v &&& 0x1F) * 8)) ∧
    set_pixel_color_16 0xF800 = qcolor 248 0 0 ∧
    set_pixel_color_16 0x07E0 = qcolor 0 252 0 ∧
    set_pixel_color_16 0x001F = qcolor 0 0 248 := by
  refine ⟨?_, by decide, by decide, by decide⟩
  intro v
  have hm11 : (0xF800 : Nat) >>> 11 = 0x1F := by decide
  have hm5 : (0x7E0 : Nat) >>> 5 = 0x3F := by decide
  have hr : (v &&& 0xF800) >>> (5 + 6) = (v >>> 11) &&& 0x1F := by
    show (v &&& 0xF800) >>> 11 = (v >>> 11) &&& 0x1F
    rw [and_shiftRight_distrib, hm11]
  have hg : (v &&& 0x7E0) >>> 5 = (v >>> 5) &&& 0x3F := by
    rw [and_shiftRight_distrib, hm5]
  simp [set_pixel_color_16, hr, hg]

/-- Claim C10: for every 16-bit input value the decoded channels are valid
8-bit values: red and blue are multiples of 8 bounded by 248, green is a
multiple of 4 bounded by 252, so no channel exceeds 255. -/
theorem c10_rgb565_channel_bounds (v : Nat) (hv : v < 65536) :
    (set_pixel_color_16 v).r ≤ 248 ∧ 8 ∣ (set_pixel_color_16 v).r ∧
    (set_pixel_color_16 v).g ≤ 252 ∧ 4 ∣ (set_pixel_color_16 v).g ∧
    (set_pixel_color_16 v).b ≤ 248 ∧ 8 ∣ (set_pixel_color_16 v).b ∧
    (set_pixel_color_16 v).r ≤ 255 ∧ (set_pixel_color_16 v).g ≤ 255 ∧
    (set_pixel_color_16 v).b ≤ 255 := by
  have hb : v &&& 0x1F ≤ 31 := Nat.and_le_right
  have hg : (v &&& 0x7E0) >>> 5 ≤ 63 := by
    have h1 : v &&& 0x7E0 ≤ 0x7E0 := Nat.and_le_right
    rw [Nat.shiftRight_eq_div_pow]
    calc (v &&& 0x7E0) / 2 ^ 5 ≤ 0x7E0 / 2 ^ 5 := Nat.div_le_div_right h1
      _ = 63 := by norm_num
  have hr : (v &&& 0xF800) >>> (5 + 6) ≤ 31 := by
    have h1 : v &&& 0xF800 ≤ 0xF800 := Nat.and_le_right
    rw [Nat.shiftRight_eq_div_pow]
    calc (v &&& 0xF800) / 2 ^ (5 + 6) ≤ 0xF800 / 2 ^ (5 + 6) := Nat.div_le_div_right h1
      _ = 31 := by norm_num
  simp only [set_pixel_color_16, qcolor]
  exact ⟨by omega, dvd_mul_left 8 _, by omega, dvd_mul_left 4 _, by omega,
    dvd_mul_left 8 _, by omega, by omega, by omega⟩

/-- Claim C10 witness: the bounds at the all-ones 16-bit value. -/
theorem c10_rgb565_channel_bounds_witness :
    (65535 : Nat) < 65536 ∧ (set_pixel_color_16 65535).r ≤ 248 :=
  ⟨by decide, (c10_rgb565_channel_bounds 65535 (by decide)).1⟩

/-- Claim C3: each 64-bit unit is split so that pixel i takes bits 16 * i
through 16 * i + 15, and the four pixels are drawn at consecutive x
positions p_x, p_x + 1, p_x + 2, p_x + 3 of the same row p_y in that
order; decoding the unit 0x001F07E0F8000000 yields in order black,
RGB565(0xF800), RGB565(0x07E0), RGB565(0x001F). -/
theorem c3_packed_quartet_decode :
    (∀ p_x p_y q : Nat, quartet_ops p_x p_y q =
      [PaintOp.point (p_x * SCALE) (p_y * SCALE)
         (set_pixel_color_16 ((q >>> (16 * 0)) &&& 0xFFFF)),
       PaintOp.point ((p_x + 1) * SCALE) (p_y * SCALE)
         (set_pixel_color_16 ((q >>> (16 * 1)) &&& 0xFFFF)),
       PaintOp.point ((p_x + 2) * SCALE) (p_y * SCALE)
         (set_pixel_color_16 ((q >>> (16 * 2)) &&& 0xFFFF)),
       PaintOp.point ((p_x + 3) * SCALE) (p_y * SCALE)
         (set_pixel_color_16 ((q >>> (16 * 3)) &&& 0xFFFF))]) ∧
    quartet_ops 0 0 0x001F07E0F8000000 =
      [PaintOp.point 0 0 (qcolor 0 0 0),
       PaintOp.point 2 0 (set_pixel_color_16 0xF800),
       PaintOp.point 4 0 (set_pixel_color_16 0x07E0),
       PaintOp.point 6 0 (set_pixel_color_16 0x001F)] := by
  constructor
  · intro p_x p_y q
    have h0 : q &&& 0x000000000000FFFF = (q >>> (16 * 0)) &&& 0xFFFF := by
      rw [Nat.mul_zero, Nat.shiftRight_zero]
    have hm16 : (0x00000000FFFF0000 : Nat) >>> 16 = 0xFFFF := by decide
    have hm32 : (0x0000FFFF00000000 : Nat) >>> 32 = 0xFFFF := by decide
    have hm48 : (0xFFFF000000000000 : Nat) >>> 48 = 0xFFFF := by decide
    have h1 : (q &&& 0x00000000FFFF0000) >>> 16 = (q >>> (16 * 1)) &&& 0xFFFF := by
      show (q &&& 0x00000000FFFF0000) >>> 16 = (q >>> 16) &&& 0xFFFF
      rw [and_shiftRight_distrib, hm16]
    have h2 : (q &&& 0x0000FFFF00000000) >>> 32 = (q >>> (16 * 2)) &&& 0xFFFF := by
      show (q &&& 0x0000FFFF00000000) >>> 32 = (q >>> 32) &&& 0xFFFF
      rw [and_shiftRight_distrib, hm32]
    have h3 : (q &&& 0xFFFF000000000000) >>> 48 = (q >>> (16 * 3)) &&& 0xFFFF := by
      show (q &&& 0xFFFF000000000000) >>> 48 = (q >>> 48) &&& 0xFFFF
      rw [and_shiftRight_distrib, hm48]
    rw [quartet_ops, h0, h1, h2, h3]
  · decide

/-- Claim C7: for all valid (W, H) with H divisible by 8, decoding a mono
RawFrame of all-zero bytes emits only the background fill, succeeds, and
leaves every device pixel at the background color. -/
theorem c7_zero_frame_background (w h x y : Nat) (hh : h % 8 = 0) :
    draw_screen_mono w (h / 8) (List.replicate (w * (h / 8)) 0)
      = ([PaintOp.fill BG_COLOR], true) ∧
    monoGrid w (h / 8) (List.replicate (w * (h / 8)) 0) x y = BG_COLOR := by
  have hsome : ∀ pc ∈ page_columns w (h / 8),
      ((List.replicate (w * (h / 8)) 0)[pc.2 + pc.1 * w]?).map
        (fun byte => bit_ops byte pc.2 pc.1 (h / 8)) = some [] := by
    intro pc hpc
    obtain ⟨p, c⟩ := pc
    obtain ⟨hp, hc⟩ := mem_page_columns.mp hpc
    have hidx : c + p * w < w * (h / 8) := index_lt hp hc
    rw [List.getElem?_replicate]
    rw [if_pos hidx]
    simp [bit_ops]
  have hdraw := emitAll_of_some _ (fun _ => []) (page_columns w (h / 8)) hsome
  have h1 : draw_screen_mono w (h / 8) (List.replicate (w * (h / 8)) 0)
      = ([PaintOp.fill BG_COLOR], true) := by
    simp [draw_screen_mono, clear_screen, hdraw, flatten_map_nil]
  refine ⟨h1, ?_⟩
  rw [monoGrid, h1]
  rfl

/-- Claim C7 witness: the all-zero frame at W = 4, H = 8, checked at the
device pixel (1, 2). -/
theorem c7_zero_frame_background_witness :
    8 % 8 = 0 ∧ monoGrid 4 (8 / 8) (List.replicate (4 * (8 / 8)) 0) 1 2 = BG_COLOR :=
  ⟨by decide, (c7_zero_frame_background 4 8 1 2 (by decide)).2⟩

/-- Claim C8: with width 4, height 8 (one page) and the RawFrame
[0x01, 0x00, 0x00, 0x00], only device pixel (0, 0) is foreground and the
31 remaining pixels of the 4 x 8 grid show the background color. -/
theorem c8_end_to_end_mono :
    monoGrid 4 1 [1, 0, 0, 0] 0 0 = WHITE ∧
    colorCount 4 8 (draw_screen_mono 4 1 [1, 0, 0, 0]).1 WHITE = 1 ∧
    colorCount 4 8 (draw_screen_mono 4 1 [1, 0, 0, 0]).1 BG_COLOR = 31 := by decide

/-- Claim C4 shows a code bug: the code has no frame-size check at all.
On a mono frame of the wrong length (here the empty frame where W = 4,
pages = 1 expects 4 bytes) the draw clears the canvas and then hits an
out-of-range index (an uncaught IndexError in Python, modelled by the
false success flag): there is no FrameSizeMismatch value anywhere, and
the previously displayed grid is NOT left untouched - a pixel that showed
WHITE before the tick shows the background color after the failing tick.
The rgb565 path fails the same way. -/
theorem c4_no_size_check_partial_clear :
    draw_screen_mono 4 1 [] = ([PaintOp.fill BG_COLOR], false) ∧
    renderDevice WHITE (draw_screen_mono 4 1 []).1 0 0 = BG_COLOR ∧
    draw_screen_rgb565 4 1 [] = ([PaintOp.fill BG_COLOR], false) := by decide

/-- Claim C5 shows a code bug: VirtualScreen.__init__ performs no geometry
validation.  Requesting mono mode with height 12 (not divisible by 8) is
accepted: the constructor returns a screen with vram_pages = 12 / 8 = 1
(floor division) and the timer connected to the mono draw handler, so the
render loop is entered; no UnsupportedFormat rejection exists. -/
theorem c5_no_geometry_validation :
    initVirtualScreen "mono" 128 12 =
      { mode := "mono", vram_w := 128, vram_h := 12, vram_pages := 1,
        timer_connected := true } := by decide

/-- Claim C9: when the normalized target equals the OPENOCD sentinel and
the parsed address is zero (the default "0" parses to 0), startup ends in
sys.exit with the descriptive message, which exits with status 1, before
any probe connection is constructed. -/
theorem c9_openocd_zero_address_exit (mcuArg : String) (address : Nat)
    (hm : normalize_mcu mcuArg = "OPENOCD") (ha : address = 0) :
    main_startup mcuArg address = StartupResult.exitWithError
      "Parameter <address> must be specified if mcu=OpenOCD (-h for help)." ∧
    startupExitCode (main_startup mcuArg address) = some 1 := by
  subst ha
  simp [main_startup, hm, startupExitCode]

/-- Claim C9 witness: the literal command-line argument OpenOCD with
address 0. -/
theorem c9_openocd_zero_address_exit_witness :
    normalize_mcu "OpenOCD" = "OPENOCD" ∧ (0 : Nat) = 0 ∧
    main_startup "OpenOCD" 0 = StartupResult.exitWithError
      "Parameter <address> must be specified if mcu=OpenOCD (-h for help)." :=
  ⟨by decide, rfl, (c9_openocd_zero_address_exit "OpenOCD" 0 (by decide) rfl).1⟩

theorem quartet_cells_eq (w h : Nat) : quartet_cells w h = page_columns ((w + 3) / 4) h := rfl

theorem flatten_flatMap {alpha beta : Type} (l : List alpha) (G : alpha → List (List beta)) :
    (l.flatMap G).flatten = l.flatMap (fun a => (G a).flatten) := by
  induction l with
  | nil => rfl
  | cons a t ih => simp [List.flatMap_cons, List.flatten_append, ih]

theorem quartet_ops_filterMap_opPos (p_x p_y q : Nat) :
    (quartet_ops p_x p_y q).filterMap opPos =
      [(p_x * SCALE, p_y * SCALE), ((p_x + 1) * SCALE, p_y * SCALE),
       ((p_x + 2) * SCALE, p_y * SCALE), ((p_x + 3) * SCALE, p_y * SCALE)] := rfl

theorem draw_screen_rgb565_eq (k h : Nat) (vram : List Nat)
    (hlen : vram.length = k * h) :
    draw_screen_rgb565 (4 * k) h vram =
      (PaintOp.fill BG_COLOR ::
        ((quartet_cells (4 * k) h).map (fun c =>
          quartet_ops (4 * c.2) c.1 (vram.getD (c.2 + c.1 * k) 0))).flatten, true) := by
  have hro : 4 * k / 4 = k := by omega
  have hk3 : (4 * k + 3) / 4 = k := by omega
  have hsome : ∀ c ∈ quartet_cells (4 * k) h,
      (vram[c.2 + c.1 * k]?).map (fun q => quartet_ops (4 * c.2) c.1 q)
        = some (quartet_ops (4 * c.2) c.1 (vram.getD (c.2 + c.1 * k) 0)) := by
    intro c hc
    obtain ⟨p_y, i_x⟩ := c
    rw [quartet_cells_eq] at hc
    obtain ⟨hy, hx⟩ := mem_page_columns.mp hc
    rw [hk3] at hx
    have hidx : i_x + p_y * k < vram.length := by
      rw [hlen]; exact index_lt hy hx
    rw [getElem?_eq_some_getD vram _ hidx]
    rfl
  have hall := emitAll_of_some
    (fun c => (vram[c.2 + c.1 * k]?).map (fun q => quartet_ops (4 * c.2) c.1 q))
    (fun c => quartet_ops (4 * c.2) c.1 (vram.getD (c.2 + c.1 * k) 0))
    (quartet_cells (4 * k) h) hsome
  simp only [draw_screen_rgb565, hro]
  rw [hall]
  rfl

/-- Claim C6: in packed RGB565 mode, for every W divisible by 4 and every
H, on a frame of (W * H) / 4 units the draw succeeds and the sequence of
emitted point positions is exactly one point per device pixel, in
row-major left-to-right top-to-bottom order, at canvas coordinate
(x * SCALE, y * SCALE), with no point outside the grid. -/
theorem c6_rgb565_row_major (w h : Nat) (vram : List Nat)
    (hw : w % 4 = 0) (hlen : vram.length = w * h / 4) :
    (draw_screen_rgb565 w h vram).2 = true ∧
    (draw_screen_rgb565 w h vram).1.filterMap opPos = rowMajorPoints w h := by
  obtain ⟨k, rfl⟩ : ∃ k, w = 4 * k := ⟨w / 4, by omega⟩
  have hlen2 : vram.length = k * h := by
    have h1 : 4 * k * h = 4 * (k * h) := by ring
    omega
  rw [draw_screen_rgb565_eq k h vram hlen2]
  refine ⟨rfl, ?_⟩
  show (PaintOp.fill BG_COLOR :: ((quartet_cells (4 * k) h).map (fun c =>
      quartet_ops (4 * c.2) c.1 (vram.getD (c.2 + c.1 * k) 0))).flatten).filterMap opPos
    = rowMajorPoints (4 * k) h
  have hk3 : (4 * k + 3) / 4 = k := by omega
  rw [List.filterMap_cons_none rfl, List.filterMap_flatten, List.map_map]
  simp only [quartet_cells, hk3, List.map_flatMap, List.map_map, Function.comp]
  rw [flatten_flatMap]
  have hrow : ∀ y : Nat, ((List.range k).map (fun i =>
      (quartet_ops (4 * i) y (vram.getD (i + y * k) 0)).filterMap opPos)).flatten
      = (List.range (4 * k)).map (fun x => (x * SCALE, y * SCALE)) := by
    intro y
    have hbody : ∀ i ∈ List.range k,
        (quartet_ops (4 * i) y (vram.getD (i + y * k) 0)).filterMap opPos
          = [((4 * i) * SCALE, y * SCALE), ((4 * i + 1) * SCALE, y * SCALE),
             ((4 * i + 2) * SCALE, y * SCALE), ((4 * i + 3) * SCALE, y * SCALE)] :=
      fun i _ => quartet_ops_filterMap_opPos (4 * i) y _
    rw [List.map_congr_left hbody]
    exact flatten_map_quadruple (fun x => (x * SCALE, y * SCALE)) k
  show _ = (List.range h).flatMap (fun y => (List.range (4 * k)).map
    (fun x => (x * SCALE, y * SCALE)))
  rw [List.flatMap_def, List.flatMap_def]
  exact congrArg List.flatten (List.map_congr_left (fun y _ => hrow y))

/-- Claim C6 witness: the 4 x 2 grid with a frame of 4 * 2 / 4 = 2 units
emits the eight row-major points. -/
theorem c6_rgb565_row_major_witness :
    4 % 4 = 0 ∧ ([0, 0] : List Nat).length = 4 * 2 / 4 ∧
    (draw_screen_rgb565 4 2 [0, 0]).1.filterMap opPos = rowMajorPoints 4 2 :=
  ⟨by decide, by decide, (c6_rgb565_row_major 4 2 [0, 0] (by decide) (by decide)).2⟩
